import Mathlib

/-!
# Verification of the Email crawler (src/Email.py)

A shallow embedding of `src/Email.py`: the `Email` string-subclass (parser,
serialisation, `tld` property setter, `findall`, `pwned` breach check) and the
`Domain` crawl loop, together with theorems settling the specification claims.

Python strings are modelled as `List Char` (`Str`).  Python `float` sleep
durations are modelled as exact rationals `ℚ`; the only float arithmetic in
the source is `float(...)` conversion of a header value and comparisons, which
are exact on the values concerned.  `int(0.9 * len(visited))` is modelled as
`9 * n / 10` in `ℕ` (floor), which agrees with the float computation on the
whole realistic range of set sizes.
-/

/-- Python strings, modelled as lists of characters. -/
abbrev Str := List Char

/-! ## Characters: `str.lower()` and `str.isnumeric()` building blocks -/

/-- One character of Python's `str.lower()`: ASCII uppercase maps to
lowercase, everything else is unchanged.

This is the **ASCII fragment** of `str.lower()` only.  On non-ASCII input
the real `str.lower()` differs: it lowercases other cased letters, has
multi-character special mappings — `'İ'` (U+0130) lowercases to the
two-character `'i̇'` — and context-dependent ones (final sigma).  In
particular `lowerStr` built from this map is length-preserving while
`str.lower()` is not.  Every statement below that quantifies over raw
input strings and whose truth depends on `lowerStr` therefore carries an
explicit all-ASCII hypothesis restricting it to the fragment on which this
definition coincides with `str.lower()`; on fixed ASCII data (the
allow-set, header names, concrete fixtures) the two agree outright. -/
def lowerChar (c : Char) : Char :=
  if 65 ≤ c.toNat ∧ c.toNat ≤ 90 then Char.ofNat (c.toNat + 32) else c

/-- Python `str.lower()` on a whole string. -/
def lowerStr (s : Str) : Str := s.map lowerChar

/-- One character of Python's `str.isnumeric()`, restricted to ASCII digits
(the decimal-digit fragment of the Unicode property actually exercised by
numeric domain labels such as IP literals). -/
def numericChar (c : Char) : Bool :=
  48 ≤ c.toNat && c.toNat ≤ 57

/-- Python `str.isnumeric()`: non-empty and all characters numeric. -/
def isnumericStr (s : Str) : Bool :=
  !s.isEmpty && s.all numericChar

/-! ## `re.split` on a single literal character, and `'.'.join` -/

/-- `re.split(c, s)` for a single-character pattern: the chunks between
occurrences of `c`, keeping empty chunks.  Always returns a non-empty list. -/
def splitChar (c : Char) : Str → List Str
  | [] => [[]]
  | a :: rest =>
      if a = c then [] :: splitChar c rest
      else
        match splitChar c rest with
        | [] => [[a]]
        | h :: t => (a :: h) :: t

/-- `c.join(labels)` (Python `'.'.join` when `c = '.'`). -/
def joinSep (c : Char) : List Str → Str
  | [] => []
  | [a] => a
  | a :: b :: rest => a ++ c :: joinSep c (b :: rest)

/-- `domain_list[-1]` (all the lists indexed this way in the source are
provably non-empty, so the default is never consulted). -/
def lastD (dl : List Str) : Str := dl.getLastD []

/-! ## The Email data model -/

/-- Status texts produced by the `pwned_status_codes` mapping in
`Email.pwned` (line 109–114): the strings `'address breached'`,
`'address not breached'`, `'rate limit'` and `f'unknown status code {c}'`. -/
inductive PwnedStatus where
  | breached
  | notBreached
  | rateLimit
  | unknown (code : ℕ)
deriving DecidableEq

/-- The attributes an `Email` object carries (`Email.__init__`, line 31–58,
plus the attributes assigned by `Email.pwned`).  `email_addr` is the raw
input string; since `Email` subclasses `str`, Python `==`/`hash` on `Email`
values is exactly `==`/`hash` on `email_addr`.  `pwned_status` and
`last_error` only come into existence inside `pwned`; before the first call
they are modelled as `none`.  Transport errors are identified by an opaque
numeric tag. -/
structure Email where
  email_addr : Str
  name : Str
  domain : Str
  tld : Option Str
  country : Option Str
  pwned_sleep : ℚ
  pwned_status : Option PwnedStatus
  last_error : Option ℕ
deriving DecidableEq

/-- The initial back-off duration `1.7` assigned to `self.pwned_sleep`
(line 58), as the exact rational 17/10 (given in normalised form so that
kernel evaluation of concrete runs goes through). -/
def defaultSleep : ℚ := ⟨17, 10, by decide, by decide⟩

/-- `Email.email_tlds` (line 9).  The source stores a `set`; membership is
what matters, and `startswith_tld`'s result is order-independent because no
element is a prefix of another. -/
def email_tlds : List Str :=
  ["bank", "com", "org", "net", "int", "edu", "gov", "mil"].map String.toList

/-- `Domain.skip_types` (line 151). -/
def skip_types : List Str :=
  ["doc", "docx", "xls", "xlsx", "pdf", "png", "jpg", "jpeg", "zip",
   "mp3", "mp4", "exe"].map String.toList

/-- `pat` is a prefix of `s`.  (Python `s.startswith(pat)`.) -/
def strStartsWith : Str → Str → Bool
  | _, [] => true
  | [], _ :: _ => false
  | a :: as, b :: bs => a = b && strStartsWith as bs

/-- `Email.startswith_tld` (line 23–29): the first allow-set entry that
`test_str.lower()` starts with; Python returns `False`, modelled `none`. -/
def startswith_tld (test_str : Str) : Option Str :=
  email_tlds.find? (fun tld => strStartsWith (lowerStr test_str) tld)

/-- Line 47–48: if there is more than one label and the last has length 2,
pop it off as the (lower-cased) country. -/
def popCountry (dl : List Str) : List Str × Option Str :=
  if 1 < dl.length ∧ (lastD dl).length = 2 then
    (dl.dropLast, some (lowerStr (lastD dl)))
  else (dl, none)

/-- Line 51–55: if more than one label remains and the last starts with an
allow-set TLD, record the matched TLD (not the full label) and pop. -/
def popTld (dl : List Str) : List Str × Option Str :=
  if 1 < dl.length then
    match startswith_tld (lastD dl) with
    | some t => (dl.dropLast, some t)
    | none => (dl, none)
  else (dl, none)

/-- Lines 44–55 of `Email.__init__`: on an all-numeric label list nothing is
extracted; otherwise pop country then TLD.  Returns
`(remaining labels, tld, country)`. -/
def parseCore (dl : List Str) : List Str × Option Str × Option Str :=
  if dl.all isnumericStr then (dl, none, none)
  else ((popTld (popCountry dl).1).1, (popTld (popCountry dl).1).2, (popCountry dl).2)

/-- The record built by a successful `Email.__init__`: raw string, local
part, joined remaining labels, tld, country, and the fixed initial
`pwned_sleep = 1.7` (line 58). -/
def mkEmail (s n : Str) (p : List Str × Option Str × Option Str) : Email :=
  { email_addr := s
    name := n
    domain := joinSep '.' p.1
    tld := p.2.1
    country := p.2.2
    pwned_sleep := defaultSleep
    pwned_status := none
    last_error := none }

/-- `Email.__init__` (line 31–58) as a total function: `none` models a raised
exception.  The two-way unpack of `re.split('@', ...)` (line 35) raises
unless splitting yields exactly two chunks; line 41–42 raises when the final
label is `'x'` or a skip-type file extension.  The assignments
`self.tld = ...` go through the validating `tld` setter, which provably
accepts `None` and every member of the allow-set, so they are inlined
here. -/
def parseEmail (s : Str) : Option Email :=
  match splitChar '@' s with
  | [n, d] =>
      if lastD (splitChar '.' d) = ['x'] ∨ lastD (splitChar '.' d) ∈ skip_types
      then none
      else some (mkEmail s n (parseCore (splitChar '.' d)))
  | _ => none

/-- Python truthiness of an optional string (`if self.tld:` treats both
`None` and `''` as absent). -/
def truthyStr : Option Str → Bool
  | none => false
  | some s => !s.isEmpty

/-- The labels contributed to `__str__`'s join by an optional field, under
Python truthiness. -/
def optLabel (v : Option Str) : List Str :=
  match v with
  | none => []
  | some t => if t.isEmpty then [] else [t]

/-- `Email.__str__` (line 63–69): `name + '@' + '.'.join(domain_list)` where
`domain_list` is `[domain]` plus the truthy `tld` and `country`. -/
def emailStr (e : Email) : Str :=
  e.name ++ '@' :: joinSep '.' ([e.domain] ++ optLabel e.tld ++ optLabel e.country)

/-- The `tld` property setter (line 75–79): raises (`none`) when the value is
truthy and its lower-casing is not in the allow-set, otherwise stores the
value as given. -/
def tldSetter (e : Email) (v : Option Str) : Option Email :=
  if truthyStr v ∧ lowerStr (v.getD []) ∉ email_tlds then none
  else some { e with tld := v }

/-- `Email.findall` (line 11–21), with the `re.findall` scan abstracted by
its list of raw pattern matches (regex matching is consumed here as an
external capability; everything after it is modelled): deduplicate the
matches (`set(...)`), construct `Email` on each, and silently discard the
ones whose construction raises. -/
def findallFromMatches (ms : List Str) : List Email :=
  ms.dedup.filterMap parseEmail

/-! ## The breach check `Email.pwned` (line 86–136)

The HTTP layer is the oracle: attempt `i` of a call either raises a
transport exception (`exn`, carrying an opaque error tag) or yields a
response with a status code and headers.  Header values stand for the
result of `float(...)` on the corresponding header string; `time.sleep` is
observable as the list of slept durations. -/

/-- What `requests.get` does on one attempt: raise, or return a response
with a status code and headers. -/
inductive Attempt where
  | exn (e : ℕ)
  | resp (status : ℕ) (headers : List (Str × ℚ))
deriving DecidableEq

/-- The `pwned_status_codes` dictionary lookup (line 109–117):
status text together with the optional terminal return value. -/
def statusOf (c : ℕ) : PwnedStatus × Option Bool :=
  if c = 200 then (.breached, some true)
  else if c = 404 then (.notBreached, some false)
  else if c = 429 ∨ c = 503 then (.rateLimit, none)
  else (.unknown c, none)

/-- Line 126–127: lower-case all header keys, then
`headers.get('retry-after', default)`. -/
def headerLookup (hs : List (Str × ℚ)) (d : ℚ) : ℚ :=
  match (hs.map (fun p => (lowerStr p.1, p.2))).lookup ("retry-after".toList) with
  | some v => v
  | none => d

/-- How one call to `Email.pwned` ends: a returned boolean, the raise on an
over-long retry-after (line 129–130), or the exhaustion raise
(line 136) carrying `self.last_error`. -/
inductive PwnedOutcome where
  | result (b : Bool)
  | timeout
  | exhausted (lastErr : Option ℕ)
deriving DecidableEq

/-- The `while (max_attempts > 0)` loop of `Email.pwned` (line 94–133).
`fuel` is the remaining `max_attempts`, `i` indexes the attempts made so
far (only used to query the oracle), `e` is the mutable object state and
`sleeps` the `time.sleep` calls issued so far.  Returns the outcome, the
final object state and the full sleep trace. -/
def pwnedLoop (env : ℕ → Attempt) : ℕ → ℕ → Email → List ℚ →
    PwnedOutcome × Email × List ℚ
  | fuel + 1, i, e, sleeps =>
    match env i with
    | .exn err =>
        -- line 104–106: record the error and continue (no sleep)
        pwnedLoop env fuel (i + 1) { e with last_error := some err } sleeps
    | .resp c hs =>
        -- line 103 clears last_error; line 115 records the status text
        match (statusOf c).2 with
        | some b =>
            -- line 120–122: sleep current back-off, then return
            (.result b,
             { e with last_error := none, pwned_status := some (statusOf c).1 },
             sleeps ++ [e.pwned_sleep])
        | none =>
            if (statusOf c).1 = .rateLimit then
              -- line 126–130: adopt the server-provided duration, raise if
              -- it exceeds 80000 (the assignment precedes the raise, so it
              -- persists even on the timeout path); no sleep before a raise
              if 80000 < headerLookup hs e.pwned_sleep then
                (.timeout,
                 { e with last_error := none,
                          pwned_status := some (statusOf c).1,
                          pwned_sleep := headerLookup hs e.pwned_sleep },
                 sleeps)
              else
                pwnedLoop env fuel (i + 1)
                  { e with last_error := none,
                           pwned_status := some (statusOf c).1,
                           pwned_sleep := headerLookup hs e.pwned_sleep }
                  (sleeps ++ [headerLookup hs e.pwned_sleep])
            else
              -- unknown status code: line 133 sleeps, then next attempt
              pwnedLoop env fuel (i + 1)
                { e with last_error := none, pwned_status := some (statusOf c).1 }
                (sleeps ++ [e.pwned_sleep])
  | 0, _, e, sleeps => (.exhausted e.last_error, e, sleeps)

/-- `Email.pwned`: `max_attempts = 2` (line 91), starting at attempt 0 with
no sleeps issued. -/
def pwned (env : ℕ → Attempt) (e : Email) : PwnedOutcome × Email × List ℚ :=
  pwnedLoop env 2 0 e []

/-- Attempt `a`, entered with back-off `sl`, does not reach a terminal
outcome (no 200/404 return value and no over-long retry-after raise). -/
def attemptNonTerminal (a : Attempt) (sl : ℚ) : Prop :=
  match a with
  | .exn _ => True
  | .resp c hs =>
      (statusOf c).2 = none ∧
        ((statusOf c).1 = .rateLimit → headerLookup hs sl ≤ 80000)

/-- The back-off duration in force after attempt `a` was processed, having
been entered with back-off `sl`. -/
def attemptSleepAfter (a : Attempt) (sl : ℚ) : ℚ :=
  match a with
  | .exn _ => sl
  | .resp c hs =>
      if (statusOf c).1 = .rateLimit then headerLookup hs sl else sl

/-- The value `self.last_error` holds after attempt `a` was processed. -/
def attemptErr : Attempt → Option ℕ
  | .exn err => some err
  | .resp _ _ => none

/-! ## The crawl traversal loop of `Domain.__init__` (line 205–290)

The loop state is the work set `to_do_list`, the `visited` set, the
collected `emails` and `error_count`.  The oracle `env` models, per popped
link, everything the body does between line 222 and line 284: the fetch with
its https retry, the status-code and content-type checks, decoding,
`Email.findall`, and the per-href cleaning/filter chain (same-host check,
fragment/query/`@` stripping, skip-type and calendar filters, `urljoin`).
Its `page` case hands back the e-mails found and the cleaned candidate
links that reach the `if new_link not in visited` check of line 286. -/

/-- One popped link's processed result. -/
inductive FetchOutcome where
  /-- both the plain fetch and the forced-https retry raised
  (line 225–234): `error_count += 1`, continue -/
  | fetchError
  /-- `response.status_code != 200` (line 236–239) -/
  | badStatusCode
  /-- content-type without `'text'` (line 242–243): skipped silently -/
  | nonText
  /-- `decode()`/`findall` raised (line 245–250) -/
  | decodeFail
  /-- a good text page: e-mails found and cleaned candidate links -/
  | page (emails : Finset Email) (links : Finset String)

/-- The crawl loop state. -/
structure CrawlState where
  to_do : Finset String
  visited : Finset String
  emails : Finset Email
  error_count : ℕ

/-- Lines 211–214: the state right after popping `l` from the work set and
adding it to `visited`. -/
def midState (s : CrawlState) (l : String) : CrawlState :=
  { s with to_do := s.to_do.erase l, visited := insert l s.visited }

/-- Line 216–218 condition under which the loop breaks:
`error_count > 3` and `error_count > int(0.9 * len(visited))`.  The float
product is modelled by its exact floor `9 * |visited| / 10`. -/
def breakCond (s : CrawlState) : Prop :=
  3 < s.error_count ∧ 9 * s.visited.card / 10 < s.error_count

instance (s : CrawlState) : Decidable (breakCond s) := by
  unfold breakCond; infer_instance

/-- Lines 222–288: the state after the body processed popped link `l`,
starting from the mid-state `m` (which already has `l` in `visited`).
`page` merges the e-mails (line 252) and adds each candidate link not in
`visited` to the work set (line 286–288). -/
def applyOutcome (o : FetchOutcome) (m : CrawlState) : CrawlState :=
  match o with
  | .fetchError => { m with error_count := m.error_count + 1 }
  | .badStatusCode => { m with error_count := m.error_count + 1 }
  | .nonText => m
  | .decodeFail => { m with error_count := m.error_count + 1 }
  | .page es ls =>
      { m with emails := m.emails ∪ es,
               to_do := m.to_do ∪ ls.filter (fun l => l ∉ m.visited) }

/-- One full iteration of `while to_do_list:`: some link `l` is popped
(`set.pop` is arbitrary, hence a relation), `visited` is extended, the
error-budget break did **not** fire, and the body ran. -/
inductive CrawlStep (env : String → FetchOutcome) : CrawlState → CrawlState → Prop where
  | step (s : CrawlState) (l : String) (hl : l ∈ s.to_do)
      (hnb : ¬ breakCond (midState s l)) :
      CrawlStep env s (applyOutcome (env l) (midState s l))

/-- The loop can make no further iteration from `s` (it terminates there,
returning `s` as the partial result). -/
def CrawlTerminal (env : String → FetchOutcome) (s : CrawlState) : Prop :=
  ∀ s', ¬ CrawlStep env s s'

/-- Line 205–206: the loop starts with `to_do_list = {cleanaddress}` and
empty `visited` / `emails`; `error_count` is whatever the seed-resolution
phase left (0 unless the first plain-scheme fetch failed). -/
def initCrawl (cleanaddress : String) (err0 : ℕ) : CrawlState :=
  { to_do := {cleanaddress}, visited := ∅, emails := ∅, error_count := err0 }

/-! ## Concrete fixtures used by witnesses and counterexamples -/

/-- The parse result of `"a@b.org"`, used as a generic fixture object. -/
def eFix : Email :=
  { email_addr := "a@b.org".toList
    name := "a".toList
    domain := "b".toList
    tld := some ("org".toList)
    country := none
    pwned_sleep := defaultSleep
    pwned_status := none
    last_error := none }

/-- The parse result of `"a@b.comxyz"`: the TLD match tolerates trailing
garbage, recording `com` only. -/
def eGarbage : Email :=
  { email_addr := "a@b.comxyz".toList
    name := "a".toList
    domain := "b".toList
    tld := some ("com".toList)
    country := none
    pwned_sleep := defaultSleep
    pwned_status := none
    last_error := none }

/-- The parse result of `"a@b.com"`: identical to `eGarbage` except for the
raw string. -/
def eClean : Email :=
  { eGarbage with email_addr := "a@b.com".toList }

/-- Attempt oracle: the first attempt raises transport error 7, every later
one receives a bare 429 response. -/
def envErrThenRate : ℕ → Attempt :=
  fun i => if i = 0 then .exn 7 else .resp 429 []

/-- Attempt oracle: every attempt is a 429 carrying a mixed-case
`Retry-After` header of 90000 seconds. -/
def envBigRetry : ℕ → Attempt :=
  fun _ => .resp 429 [("Retry-After".toList, 90000)]

/-- Fetch oracle under which every page fetch fails. -/
def envFail : String → FetchOutcome := fun _ => .fetchError

/-- Crawl-loop state with `error_count = 4`, two links visited and one
pending (so the next pop makes `|visited| = 3`). -/
def sBudget : CrawlState :=
  { to_do := {"http://h/a"}
    visited := {"http://h/", "http://h/b"}
    emails := ∅
    error_count := 4 }

/-! ## Character-level lemmas -/

theorem toNat_ofNat_valid {n : ℕ} (h : n < 55296) : (Char.ofNat n).toNat = n := by
  unfold Char.ofNat
  rw [dif_pos (Or.inl h)]
  simp [Char.ofNatAux, Char.toNat, UInt32.toNat]

theorem lowerChar_of_upper {c : Char} (h : 65 ≤ c.toNat ∧ c.toNat ≤ 90) :
    (lowerChar c).toNat = c.toNat + 32 := by
  have hv : c.toNat + 32 < 55296 := by omega
  simp [lowerChar, if_pos h, toNat_ofNat_valid hv]

theorem lowerChar_of_not_upper {c : Char} (h : ¬(65 ≤ c.toNat ∧ c.toNat ≤ 90)) :
    lowerChar c = c := by
  simp [lowerChar, if_neg h]

theorem lowerChar_idem (c : Char) : lowerChar (lowerChar c) = lowerChar c := by
  by_cases h : 65 ≤ c.toNat ∧ c.toNat ≤ 90
  · have h1 := lowerChar_of_upper h
    apply lowerChar_of_not_upper
    omega
  · rw [lowerChar_of_not_upper h, lowerChar_of_not_upper h]

theorem numericChar_lowerChar (c : Char) : numericChar (lowerChar c) = numericChar c := by
  by_cases h : 65 ≤ c.toNat ∧ c.toNat ≤ 90
  · have h1 := lowerChar_of_upper h
    simp only [numericChar, h1]
    have e2 : decide (c.toNat + 32 ≤ 57) = false := by simp; omega
    have e3 : decide (c.toNat ≤ 57) = false := by simp; omega
    rw [e2, e3, Bool.and_false, Bool.and_false]
  · rw [lowerChar_of_not_upper h]

theorem lowerChar_eq_of_low {c d : Char} (hd : d.toNat < 97)
    (h : lowerChar c = d) : c = d := by
  by_cases hu : 65 ≤ c.toNat ∧ c.toNat ≤ 90
  · exfalso
    have h1 := lowerChar_of_upper hu
    rw [h] at h1
    omega
  · rwa [lowerChar_of_not_upper hu] at h

/-! ## String-level lemmas for `lowerStr` and `isnumericStr` -/

theorem lowerStr_length (s : Str) : (lowerStr s).length = s.length := by
  simp [lowerStr]

theorem lowerStr_idem (s : Str) : lowerStr (lowerStr s) = lowerStr s := by
  simp only [lowerStr, List.map_map]
  exact List.map_congr_left (fun c _ => lowerChar_idem c)

theorem not_mem_lowerStr_of_low {a : Char} (ha : a.toNat < 97) {s : Str}
    (h : a ∉ s) : a ∉ lowerStr s := by
  intro hm
  rcases List.mem_map.mp hm with ⟨c, hc, hlc⟩
  exact h ((lowerChar_eq_of_low ha hlc) ▸ hc)

theorem all_numericChar_lowerStr (s : Str) :
    (lowerStr s).all numericChar = s.all numericChar := by
  induction s with
  | nil => rfl
  | cons a s ih =>
    simp only [lowerStr, List.map_cons, List.all_cons] at *
    rw [numericChar_lowerChar, ih]

theorem isnumericStr_lowerStr (s : Str) : isnumericStr (lowerStr s) = isnumericStr s := by
  cases s with
  | nil => rfl
  | cons a s =>
    have h := all_numericChar_lowerStr (a :: s)
    simp only [isnumericStr, h]
    rfl

/-! ## `splitChar` and `joinSep` algebra -/

theorem splitChar_ne_nil (c : Char) (s : Str) : splitChar c s ≠ [] := by
  induction s with
  | nil => simp [splitChar]
  | cons a rest ih =>
    simp only [splitChar]
    split
    · simp
    · split
      · simp
      · simp

theorem splitChar_no_sep {c : Char} {s : Str} (h : c ∉ s) : splitChar c s = [s] := by
  induction s with
  | nil => rfl
  | cons a rest ih =>
    have ha : ¬ a = c := by rintro rfl; exact h (List.mem_cons_self a rest)
    have h' : c ∉ rest := fun hm => h (List.mem_cons_of_mem _ hm)
    simp only [splitChar, if_neg ha, ih h']

theorem splitChar_append (c : Char) (s t : Str) :
    splitChar c (s ++ c :: t) = splitChar c s ++ splitChar c t := by
  induction s with
  | nil => simp [splitChar]
  | cons a s ih =>
    by_cases ha : a = c
    · subst ha
      simp [splitChar, ih]
    · simp only [List.cons_append, splitChar, if_neg ha, List.append_eq]
      rw [ih]
      rcases hs : splitChar c s with _ | ⟨h1, t1⟩
      · exact absurd hs (splitChar_ne_nil c s)
      · simp

theorem not_mem_of_mem_splitChar {c : Char} {s l : Str}
    (hl : l ∈ splitChar c s) : c ∉ l := by
  induction s generalizing l with
  | nil =>
    simp only [splitChar, List.mem_singleton] at hl
    subst hl; simp
  | cons a rest ih =>
    simp only [splitChar] at hl
    by_cases ha : a = c
    · rw [if_pos ha] at hl
      rcases List.mem_cons.mp hl with h1 | h1
      · subst h1; simp
      · exact ih h1
    · rw [if_neg ha] at hl
      rcases hs : splitChar c rest with _ | ⟨h1, t1⟩
      · exact absurd hs (splitChar_ne_nil c rest)
      · rw [hs] at hl
        rcases List.mem_cons.mp hl with h2 | h2
        · subst h2
          intro hm
          rcases List.mem_cons.mp hm with h3 | h3
          · exact ha h3.symm
          · exact ih (hs ▸ List.mem_cons_self h1 t1) h3
        · exact ih (hs ▸ List.mem_cons_of_mem h1 h2)

theorem mem_of_mem_splitChar {c : Char} {s l : Str} {x : Char}
    (hl : l ∈ splitChar c s) (hx : x ∈ l) : x ∈ s := by
  induction s generalizing l with
  | nil =>
    simp only [splitChar, List.mem_singleton] at hl
    subst hl; simp at hx
  | cons a rest ih =>
    simp only [splitChar] at hl
    by_cases ha : a = c
    · rw [if_pos ha] at hl
      rcases List.mem_cons.mp hl with h1 | h1
      · subst h1; simp at hx
      · exact List.mem_cons_of_mem _ (ih h1 hx)
    · rw [if_neg ha] at hl
      rcases hs : splitChar c rest with _ | ⟨h1, t1⟩
      · exact absurd hs (splitChar_ne_nil c rest)
      · rw [hs] at hl
        rcases List.mem_cons.mp hl with h2 | h2
        · subst h2
          rcases List.mem_cons.mp hx with h3 | h3
          · exact h3 ▸ List.mem_cons_self a rest
          · exact List.mem_cons_of_mem _ (ih (hs ▸ List.mem_cons_self h1 t1) h3)
        · exact List.mem_cons_of_mem _ (ih (hs ▸ List.mem_cons_of_mem h1 h2) hx)

theorem joinSep_cons_cons (c : Char) (a b : Str) (L : List Str) :
    joinSep c (a :: b :: L) = a ++ c :: joinSep c (b :: L) := rfl

theorem joinSep_append {c : Char} {A B : List Str} (hA : A ≠ []) (hB : B ≠ []) :
    joinSep c (A ++ B) = joinSep c A ++ c :: joinSep c B := by
  induction A with
  | nil => exact absurd rfl hA
  | cons a A ih =>
    rcases A with _ | ⟨a2, A'⟩
    · rcases B with _ | ⟨b, B'⟩
      · exact absurd rfl hB
      · simp [joinSep]
    · have e1 : (a :: a2 :: A') ++ B = a :: (a2 :: (A' ++ B)) := rfl
      have e2 : a2 :: (A' ++ B) = (a2 :: A') ++ B := rfl
      calc joinSep c ((a :: a2 :: A') ++ B)
          = a ++ c :: joinSep c (a2 :: (A' ++ B)) := by rw [e1, joinSep_cons_cons]
        _ = a ++ c :: (joinSep c (a2 :: A') ++ c :: joinSep c B) := by
              rw [e2, ih (by simp)]
        _ = joinSep c (a :: a2 :: A') ++ c :: joinSep c B := by
              rw [joinSep_cons_cons, List.append_assoc]
              rfl

theorem splitChar_joinSep {c : Char} {L : List Str} (hL : L ≠ [])
    (h : ∀ l ∈ L, c ∉ l) : splitChar c (joinSep c L) = L := by
  induction L with
  | nil => exact absurd rfl hL
  | cons a L ih =>
    rcases L with _ | ⟨b, L'⟩
    · exact splitChar_no_sep (h a (List.mem_cons_self a []))
    · rw [joinSep_cons_cons, splitChar_append,
          splitChar_no_sep (h a (List.mem_cons_self ..)),
          ih (by simp) (fun l hl => h l (List.mem_cons_of_mem a hl))]
      rfl

theorem mem_joinSep {c : Char} {L : List Str} {x : Char}
    (hx : x ∈ joinSep c L) : x = c ∨ ∃ l ∈ L, x ∈ l := by
  induction L with
  | nil => simp [joinSep] at hx
  | cons a L ih =>
    rcases L with _ | ⟨b, L'⟩
    · exact Or.inr ⟨a, List.mem_cons_self a [], hx⟩
    · rw [joinSep_cons_cons] at hx
      rcases List.mem_append.mp hx with h1 | h1
      · exact Or.inr ⟨a, List.mem_cons_self .., h1⟩
      · rcases List.mem_cons.mp h1 with h2 | h2
        · exact Or.inl h2
        · rcases ih h2 with h3 | ⟨l, hl, hxl⟩
          · exact Or.inl h3
          · exact Or.inr ⟨l, List.mem_cons_of_mem a hl, hxl⟩

/-! ## Facts about the fixed allow- and skip-sets -/

theorem email_tlds_facts :
    ∀ t ∈ email_tlds, t ≠ [] ∧ t ≠ ['x'] ∧ t ∉ skip_types ∧ t.length ≠ 2 ∧
      '.' ∉ t ∧ '@' ∉ t ∧ lowerStr t = t ∧ isnumericStr t = false ∧
      startswith_tld t = some t := by decide

theorem skip_types_no_len2 : ∀ w ∈ skip_types, w.length ≠ 2 := by decide

/-! ## Structural lemmas about the parser -/

theorem exists_concat_of_length {dl : List Str} (h : 0 < dl.length) :
    ∃ L b, dl = L ++ [b] ∧ lastD dl = b ∧ dl.dropLast = L := by
  rcases List.eq_nil_or_concat dl with rfl | ⟨L, b, rfl⟩
  · simp at h
  · rw [List.concat_eq_append]
    exact ⟨L, b, rfl, by simp [lastD], by simp⟩

theorem parseEmail_eq_some {s : Str} {e : Email} (h : parseEmail s = some e) :
    ∃ n d, splitChar '@' s = [n, d] ∧
      ¬(lastD (splitChar '.' d) = ['x'] ∨ lastD (splitChar '.' d) ∈ skip_types) ∧
      e = mkEmail s n (parseCore (splitChar '.' d)) := by
  unfold parseEmail at h
  split at h
  case h_1 n d heq =>
    split at h
    · exact absurd h (by simp)
    case isFalse hnot =>
      exact ⟨n, d, heq, hnot, (Option.some_injective _ h).symm⟩
  case h_2 heq => exact absurd h (by simp)

theorem popCountry_pos {dl : List Str}
    (h : 1 < dl.length ∧ (lastD dl).length = 2) :
    popCountry dl = (dl.dropLast, some (lowerStr (lastD dl))) := by
  simp [popCountry, if_pos h]

theorem popCountry_neg {dl : List Str}
    (h : ¬(1 < dl.length ∧ (lastD dl).length = 2)) :
    popCountry dl = (dl, none) := by
  simp [popCountry, if_neg h]

theorem popTld_pos {dl : List Str} {t : Str} (h1 : 1 < dl.length)
    (h2 : startswith_tld (lastD dl) = some t) :
    popTld dl = (dl.dropLast, some t) := by
  simp [popTld, if_pos h1, h2]

theorem popTld_negFind {dl : List Str} (h1 : 1 < dl.length)
    (h2 : startswith_tld (lastD dl) = none) :
    popTld dl = (dl, none) := by
  rw [popTld, if_pos h1, h2]

theorem popTld_negLen {dl : List Str} (h1 : ¬ 1 < dl.length) :
    popTld dl = (dl, none) := by
  simp [popTld, if_neg h1]

/-- A successful `startswith_tld` returns a member of the allow-set. -/
theorem startswith_tld_mem {t u : Str} (h : startswith_tld t = some u) :
    u ∈ email_tlds := by
  exact List.mem_of_find?_eq_some h

theorem optLabel_some_of_ne {t : Str} (h : t ≠ []) : optLabel (some t) = [t] := by
  cases t with
  | nil => exact absurd rfl h
  | cons a as => rfl

theorem emailStr_mkEmail (s n : Str) (p : List Str × Option Str × Option Str) :
    emailStr (mkEmail s n p) =
      n ++ '@' :: joinSep '.' ([joinSep '.' p.1] ++ optLabel p.2.1 ++ optLabel p.2.2) :=
  rfl

theorem mkEmail_set_addr (s s' n : Str) (p : List Str × Option Str × Option Str) :
    { mkEmail s n p with email_addr := s' } = mkEmail s' n p := rfl

theorem joinSep_flatten {c : Char} {A : List Str} (hA : A ≠ []) (X : List Str) :
    joinSep c ([joinSep c A] ++ X) = joinSep c (A ++ X) := by
  rcases X with _ | ⟨x, xs⟩
  · simp [joinSep]
  · rw [joinSep_append (by simp) (by simp : (x :: xs : List Str) ≠ []),
        joinSep_append hA (by simp)]
    rfl

/-- Re-parsing a reconstructed address `n@M₁.….Mₖ`: the `'@'` split recovers
`n` and the joined labels, the `'.'` split recovers `M`, and the heuristics
run on exactly `M`. -/
theorem parseEmail_reconstruct {n : Str} {M : List Str}
    (hat_n : '@' ∉ n)
    (hM : M ≠ [])
    (hdot : ∀ l ∈ M, '.' ∉ l)
    (hat : ∀ l ∈ M, '@' ∉ l)
    (hskip : ¬(lastD M = ['x'] ∨ lastD M ∈ skip_types)) :
    parseEmail (n ++ '@' :: joinSep '.' M) =
      some (mkEmail (n ++ '@' :: joinSep '.' M) n (parseCore M)) := by
  have hat_join : '@' ∉ joinSep '.' M := by
    intro hm
    rcases mem_joinSep hm with h1 | ⟨l, hl, hx⟩
    · exact absurd h1 (by decide)
    · exact hat l hl hx
  have hsp : splitChar '@' (n ++ '@' :: joinSep '.' M) = [n, joinSep '.' M] := by
    rw [splitChar_append, splitChar_no_sep hat_n, splitChar_no_sep hat_join]
    rfl
  have hsj : splitChar '.' (joinSep '.' M) = M := splitChar_joinSep hM hdot
  simp only [parseEmail, hsp, hsj, if_neg hskip]

theorem lastD_concat (A : List Str) (x : Str) : lastD (A ++ [x]) = x := by
  simp [lastD]

theorem lastD_concat2 (A : List Str) (x y : Str) : lastD (A ++ [x, y]) = y := by
  rw [show A ++ [x, y] = (A ++ [x]) ++ [y] by simp, lastD_concat]

theorem dropLast_concat2 (A : List Str) (x y : Str) :
    (A ++ [x, y]).dropLast = A ++ [x] := by
  rw [show A ++ [x, y] = (A ++ [x]) ++ [y] by simp, List.dropLast_concat]

/-- Common tail of the round-trip argument: if the parse heuristics behave
on the reconstructed label list exactly as they did on the original
(hypothesis `hcoreM`), re-parsing the rendered string reproduces the
record up to its stored raw string. -/
theorem reparse_common_tail {s n : Str} {dl0 dl2 : List Str}
    {tldv ctryv : Option Str}
    (hat_n : '@' ∉ n)
    (hcore : parseCore dl0 = (dl2, tldv, ctryv))
    (hd2ne : dl2 ≠ [])
    (hMdot : ∀ l ∈ dl2 ++ optLabel tldv ++ optLabel ctryv, '.' ∉ l)
    (hMat : ∀ l ∈ dl2 ++ optLabel tldv ++ optLabel ctryv, '@' ∉ l)
    (hMskip : ¬(lastD (dl2 ++ optLabel tldv ++ optLabel ctryv) = ['x'] ∨
               lastD (dl2 ++ optLabel tldv ++ optLabel ctryv) ∈ skip_types))
    (hcoreM : parseCore (dl2 ++ optLabel tldv ++ optLabel ctryv) =
              (dl2, tldv, ctryv)) :
    parseEmail (emailStr (mkEmail s n (parseCore dl0))) =
      some { mkEmail s n (parseCore dl0) with
             email_addr := emailStr (mkEmail s n (parseCore dl0)) } := by
  rw [hcore, emailStr_mkEmail]
  have hMne : dl2 ++ optLabel tldv ++ optLabel ctryv ≠ [] := by
    intro hM
    rcases List.append_eq_nil.mp hM with ⟨h1, _⟩
    exact hd2ne (List.append_eq_nil.mp h1).1
  have hflat : joinSep '.' ([joinSep '.' dl2] ++ optLabel tldv ++ optLabel ctryv) =
      joinSep '.' (dl2 ++ optLabel tldv ++ optLabel ctryv) := by
    rw [List.append_assoc, joinSep_flatten hd2ne, ← List.append_assoc]
  rw [hflat, parseEmail_reconstruct hat_n hMne hMdot hMat hMskip, hcoreM]
  rfl

/-- Claim C1, field-level round trip on the ASCII fragment: re-parsing the
reconstructed string of any accepted all-ASCII address succeeds and
reproduces every parsed field; only the stored raw string becomes the
reconstruction itself.

The all-ASCII hypothesis scopes the statement to the inputs on which
`lowerStr` coincides with Python's `str.lower()` (see `lowerChar`); it is
not needed inside the model.  Outside ASCII the program itself violates
the field-level round trip: `Email("a@b.xİ")` records
`country = "xİ".lower() = "xi̇"`, of length 3, so re-parsing the
reconstruction `"a@b.xi̇"` pops no country and yields different fields —
`str.lower()`'s multi-character mapping for `'İ'` breaks the re-pop. -/
theorem parse_round_trip {s : Str} {e : Email} (h : parseEmail s = some e)
    (_hascii : ∀ c ∈ s, c.toNat < 128) :
    parseEmail (emailStr e) = some { e with email_addr := emailStr e } := by
  obtain ⟨n, d, hsplit, hskip, he⟩ := parseEmail_eq_some h
  subst he
  have hne : splitChar '.' d ≠ [] := splitChar_ne_nil '.' d
  have hdot : ∀ l ∈ splitChar '.' d, '.' ∉ l := fun l hl => not_mem_of_mem_splitChar hl
  have hat_n : '@' ∉ n :=
    not_mem_of_mem_splitChar (show n ∈ splitChar '@' s by rw [hsplit]; simp)
  have hat_d : '@' ∉ d :=
    not_mem_of_mem_splitChar (show d ∈ splitChar '@' s by rw [hsplit]; simp)
  have hat : ∀ l ∈ splitChar '.' d, '@' ∉ l :=
    fun l hl ha => hat_d (mem_of_mem_splitChar hl ha)
  set dl0 := splitChar '.' d with hdl0
  by_cases hnum : dl0.all isnumericStr
  · -- all labels numeric: nothing was extracted, the reconstruction is n@d
    have hcore : parseCore dl0 = (dl0, none, none) := by
      unfold parseCore
      rw [if_pos hnum]
    refine reparse_common_tail hat_n hcore hne
      (by simpa [optLabel] using hdot)
      (by simpa [optLabel] using hat)
      (by simpa [optLabel] using hskip) ?_
    rw [show optLabel none = ([] : List Str) from rfl, List.append_nil,
        List.append_nil]
    exact hcore
  · -- at least one non-numeric label: country and TLD pops may fire
    have hnum' : dl0.all isnumericStr = false := by
      simpa using hnum
    by_cases hc : 1 < dl0.length ∧ (lastD dl0).length = 2
    · -- a country was popped
      obtain ⟨L, C, hdec, hlast, hdrop⟩ :=
        exists_concat_of_length (show 0 < dl0.length by omega)
      have hpc : popCountry dl0 = (L, some (lowerStr C)) := by
        rw [popCountry_pos hc, hdrop, hlast]
      have hLne : L ≠ [] := by
        intro hL
        rw [hdec, hL] at hc
        simp at hc
      have hCmem : C ∈ dl0 := by rw [hdec]; simp
      have hudot : '.' ∉ lowerStr C :=
        not_mem_lowerStr_of_low (by decide) (hdot C hCmem)
      have huat : '@' ∉ lowerStr C :=
        not_mem_lowerStr_of_low (by decide) (hat C hCmem)
      have hulen : (lowerStr C).length = 2 := by
        rw [lowerStr_length, ← hlast]
        exact hc.2
      have hune : lowerStr C ≠ [] := by
        intro hu
        rw [hu] at hulen
        simp at hulen
      have huskip : ¬(lastD (L ++ [lowerStr C]) = ['x'] ∨
          lastD (L ++ [lowerStr C]) ∈ skip_types) := by
        rw [lastD_concat]
        rintro (h1 | h1)
        · rw [h1] at hulen
          simp at hulen
        · exact skip_types_no_len2 _ h1 hulen
      have hnumC : isnumericStr (lowerStr C) = isnumericStr C :=
        isnumericStr_lowerStr C
      by_cases ht : 1 < L.length
      · cases hfind : startswith_tld (lastD L) with
        | some t =>
          -- B1: country and TLD both popped
          obtain ⟨L2, lbl, hdecL, hlastL, hdropL⟩ :=
            exists_concat_of_length (show 0 < L.length by omega)
          have hpt : popTld L = (L2, some t) := by
            rw [popTld_pos ht hfind, hdropL]
          have hcore : parseCore dl0 = (L2, some t, some (lowerStr C)) := by
            simp [parseCore, hnum', hpc, hpt]
          have htfacts := email_tlds_facts t (startswith_tld_mem hfind)
          have hL2ne : L2 ≠ [] := by
            intro hL2
            rw [hdecL, hL2] at ht
            simp at ht
          have hmemM : ∀ l ∈ L2 ++ [t, lowerStr C],
              l ∈ L2 ∨ l = t ∨ l = lowerStr C := by
            intro l hl
            rcases List.mem_append.mp hl with h1 | h1
            · exact Or.inl h1
            · rcases List.mem_cons.mp h1 with h2 | h2
              · exact Or.inr (Or.inl h2)
              · exact Or.inr (Or.inr (List.mem_singleton.mp h2))
          have hsubL2 : ∀ l ∈ L2, l ∈ dl0 := by
            intro l hl
            rw [hdec, hdecL]
            exact List.mem_append_left _ (List.mem_append_left _ hl)
          have hnumM : (L2 ++ [t, lowerStr C]).all isnumericStr = false := by
            apply Bool.eq_false_iff.mpr
            intro hall
            have := List.all_eq_true.mp hall t (by simp)
            rw [htfacts.2.2.2.2.2.2.2.1] at this
            cases this
          have hpcM : popCountry (L2 ++ [t, lowerStr C]) =
              (L2 ++ [t], some (lowerStr C)) := by
            rw [popCountry_pos ⟨by simp, by rw [lastD_concat2]; exact hulen⟩,
                dropLast_concat2, lastD_concat2, lowerStr_idem]
          have hptM : popTld (L2 ++ [t]) = (L2, some t) := by
            rw [popTld_pos
                  (by have h0 := List.length_pos.mpr hL2ne
                      simp [List.length_append]; omega)
                  (by rw [lastD_concat]; exact htfacts.2.2.2.2.2.2.2.2),
                List.dropLast_concat]
          have hcoreM : parseCore (L2 ++ [t, lowerStr C]) =
              (L2, some t, some (lowerStr C)) := by
            simp [parseCore, hnumM, hpcM, hptM]
          refine reparse_common_tail hat_n hcore hL2ne ?_ ?_ ?_ ?_
          · rw [optLabel_some_of_ne htfacts.1, optLabel_some_of_ne hune,
                List.append_assoc]
            intro l hl
            rcases hmemM l hl with h1 | h1 | h1
            · exact hdot l (hsubL2 l h1)
            · exact h1 ▸ htfacts.2.2.2.2.1
            · exact h1 ▸ hudot
          · rw [optLabel_some_of_ne htfacts.1, optLabel_some_of_ne hune,
                List.append_assoc]
            intro l hl
            rcases hmemM l hl with h1 | h1 | h1
            · exact hat l (hsubL2 l h1)
            · exact h1 ▸ htfacts.2.2.2.2.2.1
            · exact h1 ▸ huat
          · rw [optLabel_some_of_ne htfacts.1, optLabel_some_of_ne hune,
                lastD_concat]
            rintro (h1 | h1)
            · rw [h1] at hulen
              simp at hulen
            · exact skip_types_no_len2 _ h1 hulen
          · rw [optLabel_some_of_ne htfacts.1, optLabel_some_of_ne hune,
                List.append_assoc]
            exact hcoreM
        | none =>
          -- B2: country popped, the TLD check ran and failed
          have hpt : popTld L = (L, none) := popTld_negFind ht hfind
          have hcore : parseCore dl0 = (L, none, some (lowerStr C)) := by
            simp [parseCore, hnum', hpc, hpt]
          have hnumM : (L ++ [lowerStr C]).all isnumericStr = false := by
            apply Bool.eq_false_iff.mpr
            intro hall
            apply Bool.eq_false_iff.mp hnum'
            rw [hdec]
            apply List.all_eq_true.mpr
            intro x hx
            rcases List.mem_append.mp hx with h1 | h1
            · exact List.all_eq_true.mp hall x (List.mem_append_left _ h1)
            · rw [List.mem_singleton.mp h1, ← hnumC]
              exact List.all_eq_true.mp hall (lowerStr C) (by simp)
          have hpcM : popCountry (L ++ [lowerStr C]) = (L, some (lowerStr C)) := by
            rw [popCountry_pos ⟨by have h0 := List.length_pos.mpr hLne
                                   simp [List.length_append]; omega,
                  by rw [lastD_concat]; exact hulen⟩,
                List.dropLast_concat, lastD_concat, lowerStr_idem]
          have hcoreM : parseCore (L ++ [lowerStr C]) =
              (L, none, some (lowerStr C)) := by
            simp [parseCore, hnumM, hpcM, hpt]
          have hsubL : ∀ l ∈ L, l ∈ dl0 := by
            intro l hl
            rw [hdec]
            exact List.mem_append_left _ hl
          refine reparse_common_tail hat_n hcore hLne ?_ ?_ ?_ ?_
          · rw [show optLabel none = ([] : List Str) from rfl, List.append_nil,
                optLabel_some_of_ne hune]
            intro l hl
            rcases List.mem_append.mp hl with h1 | h1
            · exact hdot l (hsubL l h1)
            · exact (List.mem_singleton.mp h1) ▸ hudot
          · rw [show optLabel none = ([] : List Str) from rfl, List.append_nil,
                optLabel_some_of_ne hune]
            intro l hl
            rcases List.mem_append.mp hl with h1 | h1
            · exact hat l (hsubL l h1)
            · exact (List.mem_singleton.mp h1) ▸ huat
          · rw [show optLabel none = ([] : List Str) from rfl, List.append_nil,
                optLabel_some_of_ne hune]
            exact huskip
          · rw [show optLabel none = ([] : List Str) from rfl, List.append_nil,
                optLabel_some_of_ne hune]
            exact hcoreM
      · -- B2': country popped, a single label remains, no TLD check
        have hpt : popTld L = (L, none) := popTld_negLen ht
        have hcore : parseCore dl0 = (L, none, some (lowerStr C)) := by
          simp [parseCore, hnum', hpc, hpt]
        have hnumM : (L ++ [lowerStr C]).all isnumericStr = false := by
          apply Bool.eq_false_iff.mpr
          intro hall
          apply Bool.eq_false_iff.mp hnum'
          rw [hdec]
          apply List.all_eq_true.mpr
          intro x hx
          rcases List.mem_append.mp hx with h1 | h1
          · exact List.all_eq_true.mp hall x (List.mem_append_left _ h1)
          · rw [List.mem_singleton.mp h1, ← hnumC]
            exact List.all_eq_true.mp hall (lowerStr C) (by simp)
        have hpcM : popCountry (L ++ [lowerStr C]) = (L, some (lowerStr C)) := by
          rw [popCountry_pos ⟨by have h0 := List.length_pos.mpr hLne
                                 simp [List.length_append]; omega,
                by rw [lastD_concat]; exact hulen⟩,
              List.dropLast_concat, lastD_concat, lowerStr_idem]
        have hcoreM : parseCore (L ++ [lowerStr C]) =
            (L, none, some (lowerStr C)) := by
          simp [parseCore, hnumM, hpcM, hpt]
        have hsubL : ∀ l ∈ L, l ∈ dl0 := by
          intro l hl
          rw [hdec]
          exact List.mem_append_left _ hl
        refine reparse_common_tail hat_n hcore hLne ?_ ?_ ?_ ?_
        · rw [show optLabel none = ([] : List Str) from rfl, List.append_nil,
              optLabel_some_of_ne hune]
          intro l hl
          rcases List.mem_append.mp hl with h1 | h1
          · exact hdot l (hsubL l h1)
          · exact (List.mem_singleton.mp h1) ▸ hudot
        · rw [show optLabel none = ([] : List Str) from rfl, List.append_nil,
              optLabel_some_of_ne hune]
          intro l hl
          rcases List.mem_append.mp hl with h1 | h1
          · exact hat l (hsubL l h1)
          · exact (List.mem_singleton.mp h1) ▸ huat
        · rw [show optLabel none = ([] : List Str) from rfl, List.append_nil,
              optLabel_some_of_ne hune]
          exact huskip
        · rw [show optLabel none = ([] : List Str) from rfl, List.append_nil,
              optLabel_some_of_ne hune]
          exact hcoreM
    · -- no country was popped
      have hpc : popCountry dl0 = (dl0, none) := popCountry_neg hc
      by_cases ht : 1 < dl0.length
      · cases hfind : startswith_tld (lastD dl0) with
        | some t =>
          -- B3: TLD popped, no country
          obtain ⟨L, lbl, hdec, hlast, hdrop⟩ :=
            exists_concat_of_length (show 0 < dl0.length by omega)
          have hpt : popTld dl0 = (L, some t) := by
            rw [popTld_pos ht hfind, hdrop]
          have hcore : parseCore dl0 = (L, some t, none) := by
            simp [parseCore, hnum', hpc, hpt]
          have htfacts := email_tlds_facts t (startswith_tld_mem hfind)
          have hLne : L ≠ [] := by
            intro hL
            rw [hdec, hL] at ht
            simp at ht
          have hsubL : ∀ l ∈ L, l ∈ dl0 := by
            intro l hl
            rw [hdec]
            exact List.mem_append_left _ hl
          have hnumM : (L ++ [t]).all isnumericStr = false := by
            apply Bool.eq_false_iff.mpr
            intro hall
            have := List.all_eq_true.mp hall t (by simp)
            rw [htfacts.2.2.2.2.2.2.2.1] at this
            cases this
          have hpcM : popCountry (L ++ [t]) = (L ++ [t], none) := by
            apply popCountry_neg
            rw [lastD_concat]
            rintro ⟨-, h2⟩
            exact htfacts.2.2.2.1 h2
          have hptM : popTld (L ++ [t]) = (L, some t) := by
            rw [popTld_pos
                  (by have h0 := List.length_pos.mpr hLne
                      simp [List.length_append]; omega)
                  (by rw [lastD_concat]; exact htfacts.2.2.2.2.2.2.2.2),
                List.dropLast_concat]
          have hcoreM : parseCore (L ++ [t]) = (L, some t, none) := by
            simp [parseCore, hnumM, hpcM, hptM]
          refine reparse_common_tail hat_n hcore hLne ?_ ?_ ?_ ?_
          · rw [optLabel_some_of_ne htfacts.1,
                show optLabel none = ([] : List Str) from rfl, List.append_nil]
            intro l hl
            rcases List.mem_append.mp hl with h1 | h1
            · exact hdot l (hsubL l h1)
            · exact (List.mem_singleton.mp h1) ▸ htfacts.2.2.2.2.1
          · rw [optLabel_some_of_ne htfacts.1,
                show optLabel none = ([] : List Str) from rfl, List.append_nil]
            intro l hl
            rcases List.mem_append.mp hl with h1 | h1
            · exact hat l (hsubL l h1)
            · exact (List.mem_singleton.mp h1) ▸ htfacts.2.2.2.2.2.1
          · rw [optLabel_some_of_ne htfacts.1,
                show optLabel none = ([] : List Str) from rfl, List.append_nil,
                lastD_concat]
            rintro (h1 | h1)
            · exact htfacts.2.1 h1
            · exact htfacts.2.2.1 h1
          · rw [optLabel_some_of_ne htfacts.1,
                show optLabel none = ([] : List Str) from rfl, List.append_nil]
            exact hcoreM
        | none =>
          -- B4: neither country nor TLD popped, reconstruction is n@d
          have hpt : popTld dl0 = (dl0, none) := popTld_negFind ht hfind
          have hcore : parseCore dl0 = (dl0, none, none) := by
            simp [parseCore, hnum', hpc, hpt]
          refine reparse_common_tail hat_n hcore hne
            (by simpa [optLabel] using hdot)
            (by simpa [optLabel] using hat)
            (by simpa [optLabel] using hskip) ?_
          rw [show optLabel none = ([] : List Str) from rfl, List.append_nil,
              List.append_nil]
          exact hcore
      · -- B4': a single label, no pops possible
        have hpt : popTld dl0 = (dl0, none) := popTld_negLen ht
        have hcore : parseCore dl0 = (dl0, none, none) := by
          simp [parseCore, hnum', hpc, hpt]
        refine reparse_common_tail hat_n hcore hne
          (by simpa [optLabel] using hdot)
          (by simpa [optLabel] using hat)
          (by simpa [optLabel] using hskip) ?_
        rw [show optLabel none = ([] : List Str) from rfl, List.append_nil,
            List.append_nil]
        exact hcore

/-! ## Raw-string behaviour of parse results -/

theorem parseEmail_email_addr {s : Str} {e : Email} (h : parseEmail s = some e) :
    e.email_addr = s := by
  obtain ⟨n, d, -, -, he⟩ := parseEmail_eq_some h
  rw [he]
  rfl

theorem popTld_tld_mem {dl : List Str} {t : Str}
    (h : (popTld dl).2 = some t) : t ∈ email_tlds := by
  unfold popTld at h
  split at h
  · rcases hfind : startswith_tld (lastD dl) with _ | u
    · rw [hfind] at h
      simp at h
    · rw [hfind] at h
      simp at h
      exact h ▸ startswith_tld_mem hfind
  · simp at h

theorem parseCore_tld_mem {dl : List Str} {t : Str}
    (h : (parseCore dl).2.1 = some t) : t ∈ email_tlds := by
  unfold parseCore at h
  split at h
  · simp at h
  · exact popTld_tld_mem h

/-! ## Claim theorems: the address model -/

/-- C5: parsing `user@sub.example.gov.uk` yields local part `user`, domain
labels `sub`/`example`, TLD `gov` and country `uk` — the 2-character final
label is popped (lower-cased) as the country before the TLD prefix match
sees `gov`. -/
theorem parse_scenario_gov_uk :
    parseEmail ("user@sub.example.gov.uk".toList) =
      some { email_addr := "user@sub.example.gov.uk".toList
             name := "user".toList
             domain := "sub.example".toList
             tld := some ("gov".toList)
             country := some ("uk".toList)
             pwned_sleep := defaultSleep
             pwned_status := none
             last_error := none } := by decide

/-- C1 as stated is false: `Email` values compare (and hash) as their raw
strings, and re-parsing the reconstruction of the accepted string
`"a@b.comxyz"` yields the raw string `"a@b.com"`, a different value. -/
theorem parse_round_trip_raw_cex :
    parseEmail ("a@b.comxyz".toList) = some eGarbage ∧
    parseEmail (emailStr eGarbage) = some eClean ∧
    eClean.email_addr ≠ eGarbage.email_addr ∧
    eClean ≠ eGarbage := by
  exact ⟨by decide, by decide, by decide, by decide⟩

/-- C1 witness: the amended round trip evaluated at `"a@b.comxyz"`. -/
theorem parse_round_trip_witness :
    parseEmail (emailStr eGarbage) =
      some { eGarbage with email_addr := emailStr eGarbage } :=
  parse_round_trip
    (show parseEmail ("a@b.comxyz".toList) = some eGarbage by decide)
    (by decide)

/-- C3 as stated is false on direct assignment: setting `tld` to `"COM"`
passes validation (its lower-casing is allowed) but stores `"COM"` itself,
which is neither lower-cased nor a member of the allow-set. -/
theorem tld_setter_cex :
    tldSetter eFix (some ("COM".toList)) =
        some { eFix with tld := some ("COM".toList) } ∧
    ("COM".toList : Str) ∉ email_tlds ∧
    lowerStr ("COM".toList) ≠ "COM".toList := by
  exact ⟨by decide, by decide, by decide⟩

/-- C3 amended: parsed addresses carry a lower-cased allow-set TLD when one
is present; direct assignment validates the **lower-casing** of the value
(failing exactly when a truthy value's lower-casing is outside the
allow-set) but stores the value as given. -/
theorem tld_validation :
    (∀ (s : Str) (e : Email) (t : Str), parseEmail s = some e →
        e.tld = some t → t ∈ email_tlds ∧ lowerStr t = t) ∧
    (∀ (e e' : Email) (v : Option Str), tldSetter e v = some e' →
        e'.tld = v ∧ (truthyStr v → lowerStr (v.getD []) ∈ email_tlds)) ∧
    (∀ (e : Email) (v : Option Str),
        tldSetter e v = none ↔ truthyStr v ∧ lowerStr (v.getD []) ∉ email_tlds) := by
  refine ⟨?_, ?_, ?_⟩
  · intro s e t h ht
    obtain ⟨n, d, -, -, he⟩ := parseEmail_eq_some h
    rw [he] at ht
    have hmem : t ∈ email_tlds := parseCore_tld_mem ht
    exact ⟨hmem, (email_tlds_facts t hmem).2.2.2.2.2.2.1⟩
  · intro e e' v h
    unfold tldSetter at h
    split at h
    · exact absurd h (by simp)
    case isFalse hcond =>
      have he' : e' = { e with tld := v } := (Option.some_injective _ h).symm
      refine ⟨by rw [he'], ?_⟩
      intro htr
      by_contra hnot
      exact hcond ⟨htr, hnot⟩
  · intro e v
    unfold tldSetter
    split
    case isTrue hcond => exact ⟨fun _ => hcond, fun _ => rfl⟩
    case isFalse hcond =>
      exact ⟨fun h => absurd h (by simp), fun h => absurd h hcond⟩

/-- C3 witness: the parse invariant at `"a@b.org"`. -/
theorem tld_validation_witness :
    ("org".toList : Str) ∈ email_tlds ∧ lowerStr ("org".toList) = "org".toList :=
  tld_validation.1 ("a@b.org".toList) eFix ("org".toList) (by decide) (by decide)

/-- C7: `findall` returns exactly the successfully parsed unique raw
matches — duplicated matches contribute once, parse failures are silently
discarded, and the result has no duplicates. -/
theorem findall_dedup_parse (ms : List Str) :
    (∀ e, e ∈ findallFromMatches ms ↔ ∃ m ∈ ms, parseEmail m = some e) ∧
    (findallFromMatches ms).Nodup := by
  constructor
  · intro e
    unfold findallFromMatches
    rw [List.mem_filterMap]
    constructor
    · rintro ⟨m, hm, hp⟩
      exact ⟨m, List.mem_dedup.mp hm, hp⟩
    · rintro ⟨m, hm, hp⟩
      exact ⟨m, List.mem_dedup.mpr hm, hp⟩
  · refine List.Nodup.filterMap ?_ ms.nodup_dedup
    intro a a' b hb hb'
    have h1 := parseEmail_email_addr (Option.mem_def.mp hb)
    have h2 := parseEmail_email_addr (Option.mem_def.mp hb')
    rw [← h1, ← h2]

/-- C7 witness: a duplicated valid match and a noise token yield exactly the
one parsed address. -/
theorem findall_dedup_parse_witness :
    eGarbage ∈ findallFromMatches
      ["a@b.comxyz".toList, "a@b.comxyz".toList, "nonsense".toList] :=
  ((findall_dedup_parse _).1 eGarbage).mpr
    ⟨"a@b.comxyz".toList, by decide, by decide⟩

/-- C9: `Email` values compare equal exactly when their raw inputs are
equal (the type subclasses `str`); `"a@b.comxyz"` and `"a@b.com"` have
identical reconstructions yet stay two distinct elements of the extractor
result and of an `Email` set. -/
theorem email_raw_equality :
    (∀ (s : Str) (e : Email), parseEmail s = some e → e.email_addr = s) ∧
    (∀ (s1 s2 : Str) (e1 e2 : Email), parseEmail s1 = some e1 →
        parseEmail s2 = some e2 → (e1 = e2 ↔ s1 = s2)) ∧
    parseEmail ("a@b.comxyz".toList) = some eGarbage ∧
    parseEmail ("a@b.com".toList) = some eClean ∧
    eGarbage ≠ eClean ∧
    emailStr eGarbage = emailStr eClean ∧
    eGarbage ∈ findallFromMatches ["a@b.comxyz".toList, "a@b.com".toList] ∧
    eClean ∈ findallFromMatches ["a@b.comxyz".toList, "a@b.com".toList] ∧
    ({eGarbage, eClean} : Finset Email).card = 2 := by
  refine ⟨fun s e h => parseEmail_email_addr h, ?_, by decide, by decide,
    by decide, by decide, by decide, by decide, by decide⟩
  intro s1 s2 e1 e2 h1 h2
  constructor
  · intro he
    rw [← parseEmail_email_addr h1, ← parseEmail_email_addr h2, he]
  · intro hs
    rw [hs] at h1
    exact Option.some_injective _ (h1.symm.trans h2)

/-- C9 witness: the raw-string law evaluated at `"a@b.comxyz"`. -/
theorem email_raw_equality_witness :
    eGarbage.email_addr = "a@b.comxyz".toList :=
  email_raw_equality.1 ("a@b.comxyz".toList) eGarbage (by decide)

/-! ## Step equations for the breach-check loop -/

theorem pwnedLoop_step_exn {env : ℕ → Attempt} {i : ℕ} {err : ℕ}
    (h : env i = .exn err) (fuel : ℕ) (e : Email) (sleeps : List ℚ) :
    pwnedLoop env (fuel + 1) i e sleeps =
      pwnedLoop env fuel (i + 1) { e with last_error := some err } sleeps := by
  rw [pwnedLoop, h]

theorem pwnedLoop_step_terminal {env : ℕ → Attempt} {i c : ℕ}
    {hs : List (Str × ℚ)} {b : Bool}
    (h : env i = .resp c hs) (h2 : (statusOf c).2 = some b)
    (fuel : ℕ) (e : Email) (sleeps : List ℚ) :
    pwnedLoop env (fuel + 1) i e sleeps =
      (.result b,
       { e with last_error := none, pwned_status := some (statusOf c).1 },
       sleeps ++ [e.pwned_sleep]) := by
  unfold pwnedLoop
  rw [h]
  simp only [h2]

theorem pwnedLoop_step_rate_big {env : ℕ → Attempt} {i c : ℕ}
    {hs : List (Str × ℚ)} {e : Email}
    (h : env i = .resp c hs) (h2 : (statusOf c).2 = none)
    (hR : (statusOf c).1 = .rateLimit)
    (hgt : 80000 < headerLookup hs e.pwned_sleep)
    (fuel : ℕ) (sleeps : List ℚ) :
    pwnedLoop env (fuel + 1) i e sleeps =
      (.timeout,
       { e with last_error := none, pwned_status := some (statusOf c).1,
                pwned_sleep := headerLookup hs e.pwned_sleep },
       sleeps) := by
  rw [pwnedLoop, h]
  simp only [h2, if_pos hR, if_pos hgt]

theorem pwnedLoop_step_rate_small {env : ℕ → Attempt} {i c : ℕ}
    {hs : List (Str × ℚ)} {e : Email}
    (h : env i = .resp c hs) (h2 : (statusOf c).2 = none)
    (hR : (statusOf c).1 = .rateLimit)
    (hgt : ¬ 80000 < headerLookup hs e.pwned_sleep)
    (fuel : ℕ) (sleeps : List ℚ) :
    pwnedLoop env (fuel + 1) i e sleeps =
      pwnedLoop env fuel (i + 1)
        { e with last_error := none, pwned_status := some (statusOf c).1,
                 pwned_sleep := headerLookup hs e.pwned_sleep }
        (sleeps ++ [headerLookup hs e.pwned_sleep]) := by
  rw [pwnedLoop, h]
  simp only [h2, if_pos hR, if_neg hgt]

theorem pwnedLoop_step_unknown {env : ℕ → Attempt} {i c : ℕ}
    {hs : List (Str × ℚ)}
    (h : env i = .resp c hs) (h2 : (statusOf c).2 = none)
    (hR : ¬ (statusOf c).1 = .rateLimit)
    (fuel : ℕ) (e : Email) (sleeps : List ℚ) :
    pwnedLoop env (fuel + 1) i e sleeps =
      pwnedLoop env fuel (i + 1)
        { e with last_error := none, pwned_status := some (statusOf c).1 }
        (sleeps ++ [e.pwned_sleep]) := by
  rw [pwnedLoop, h]
  simp only [h2, if_neg hR]

/-! ## Claim theorems: the breach check -/

theorem pwnedLoop_frame (env : ℕ → Attempt) (fuel : ℕ) :
    ∀ i e sleeps,
      ((pwnedLoop env fuel i e sleeps).2.1.email_addr = e.email_addr) ∧
      ((pwnedLoop env fuel i e sleeps).2.1.name = e.name) ∧
      ((pwnedLoop env fuel i e sleeps).2.1.domain = e.domain) ∧
      ((pwnedLoop env fuel i e sleeps).2.1.tld = e.tld) ∧
      ((pwnedLoop env fuel i e sleeps).2.1.country = e.country) := by
  induction fuel with
  | zero => exact fun i e sleeps => ⟨rfl, rfl, rfl, rfl, rfl⟩
  | succ fuel ih =>
    intro i e sleeps
    cases henv : env i with
    | exn err =>
      rw [pwnedLoop_step_exn henv]
      exact ih (i + 1) _ sleeps
    | resp c hs =>
      rcases h2 : (statusOf c).2 with _ | b
      · by_cases hR : (statusOf c).1 = PwnedStatus.rateLimit
        · by_cases hgt : 80000 < headerLookup hs e.pwned_sleep
          · rw [pwnedLoop_step_rate_big henv h2 hR hgt]
            exact ⟨rfl, rfl, rfl, rfl, rfl⟩
          · rw [pwnedLoop_step_rate_small henv h2 hR hgt]
            exact ih (i + 1) _ _
        · rw [pwnedLoop_step_unknown henv h2 hR]
          exact ih (i + 1) _ _
      · rw [pwnedLoop_step_terminal henv h2]
        exact ⟨rfl, rfl, rfl, rfl, rfl⟩

/-- C10: whatever its outcome (return, timeout raise or exhaustion raise),
a `pwned` call leaves the parsed fields of the address — raw string, local
part, domain, TLD, country — untouched; only `pwned_sleep`, `pwned_status`
and `last_error` can change. -/
theorem pwned_frame (env : ℕ → Attempt) (e : Email) :
    ((pwned env e).2.1.email_addr = e.email_addr) ∧
    ((pwned env e).2.1.name = e.name) ∧
    ((pwned env e).2.1.domain = e.domain) ∧
    ((pwned env e).2.1.tld = e.tld) ∧
    ((pwned env e).2.1.country = e.country) :=
  pwnedLoop_frame env 2 0 e []

/-- C4: a rate-limited response (429/503) adopts the case-insensitively
looked-up retry-after duration as the new persistent back-off; if it
exceeds 80000 the call fails immediately — the sleep trace is unchanged,
while the adopted duration is already stored — and otherwise the iteration
sleeps the new duration and continues with it in force for the rest of
this call and for subsequent calls on the same object. -/
theorem pwned_rate_limited (env : ℕ → Attempt) (fuel i : ℕ) (e : Email)
    (sleeps : List ℚ) (c : ℕ) (hs : List (Str × ℚ))
    (henv : env i = .resp c hs) (hc : c = 429 ∨ c = 503) :
    (80000 < headerLookup hs e.pwned_sleep →
      pwnedLoop env (fuel + 1) i e sleeps =
        (.timeout,
         { e with last_error := none,
                  pwned_status := some PwnedStatus.rateLimit,
                  pwned_sleep := headerLookup hs e.pwned_sleep },
         sleeps)) ∧
    (headerLookup hs e.pwned_sleep ≤ 80000 →
      pwnedLoop env (fuel + 1) i e sleeps =
        pwnedLoop env fuel (i + 1)
          { e with last_error := none,
                   pwned_status := some PwnedStatus.rateLimit,
                   pwned_sleep := headerLookup hs e.pwned_sleep }
          (sleeps ++ [headerLookup hs e.pwned_sleep])) := by
  have hst : statusOf c = (PwnedStatus.rateLimit, none) := by
    rcases hc with rfl | rfl <;> rfl
  have h1 : (statusOf c).1 = PwnedStatus.rateLimit := by rw [hst]
  have h2 : (statusOf c).2 = none := by rw [hst]
  constructor
  · intro hgt
    rw [pwnedLoop_step_rate_big henv h2 h1 hgt, h1]
  · intro hle
    rw [pwnedLoop_step_rate_small henv h2 h1 (not_lt.mpr hle), h1]

/-- C4 witness: a 429 carrying a mixed-case `Retry-After: 90000` header
raises immediately from the default back-off state, leaving the sleep
trace empty and the adopted duration stored. -/
theorem pwned_rate_limited_witness :
    (80000 <
        headerLookup [("Retry-After".toList, (90000 : ℚ))] eFix.pwned_sleep →
      pwnedLoop envBigRetry (1 + 1) 0 eFix [] =
        (.timeout,
         { eFix with last_error := none,
                     pwned_status := some PwnedStatus.rateLimit,
                     pwned_sleep :=
                       headerLookup [("Retry-After".toList, (90000 : ℚ))]
                         eFix.pwned_sleep },
         [])) ∧
    (headerLookup [("Retry-After".toList, (90000 : ℚ))] eFix.pwned_sleep ≤
        80000 →
      pwnedLoop envBigRetry (1 + 1) 0 eFix [] =
        pwnedLoop envBigRetry 1 (0 + 1)
          { eFix with last_error := none,
                      pwned_status := some PwnedStatus.rateLimit,
                      pwned_sleep :=
                        headerLookup [("Retry-After".toList, (90000 : ℚ))]
                          eFix.pwned_sleep }
          ([] ++ [headerLookup [("Retry-After".toList, (90000 : ℚ))]
                    eFix.pwned_sleep])) :=
  pwned_rate_limited envBigRetry 1 0 eFix [] 429
    [("Retry-After".toList, (90000 : ℚ))] rfl (Or.inl rfl)

theorem pwnedLoop_env_agree (fuel : ℕ) :
    ∀ (env env' : ℕ → Attempt) (i : ℕ) (e : Email) (sleeps : List ℚ),
      (∀ j, j < fuel → env (i + j) = env' (i + j)) →
      pwnedLoop env fuel i e sleeps = pwnedLoop env' fuel i e sleeps := by
  induction fuel with
  | zero => intros; rfl
  | succ fuel ih =>
    intro env env' i e sleeps hag
    have hsh : ∀ j, j < fuel → env (i + 1 + j) = env' (i + 1 + j) := by
      intro j hj
      have h := hag (j + 1) (by omega)
      rw [show i + (j + 1) = i + 1 + j by omega] at h
      exact h
    have h0 : env i = env' i := by
      have h := hag 0 (by omega)
      simpa using h
    cases henv : env' i with
    | exn err =>
      rw [pwnedLoop_step_exn (h0.trans henv), pwnedLoop_step_exn henv]
      exact ih env env' (i + 1) _ sleeps hsh
    | resp c hs =>
      rcases h2 : (statusOf c).2 with _ | b
      · by_cases hR : (statusOf c).1 = PwnedStatus.rateLimit
        · by_cases hgt : 80000 < headerLookup hs e.pwned_sleep
          · rw [pwnedLoop_step_rate_big (h0.trans henv) h2 hR hgt,
                pwnedLoop_step_rate_big henv h2 hR hgt]
          · rw [pwnedLoop_step_rate_small (h0.trans henv) h2 hR hgt,
                pwnedLoop_step_rate_small henv h2 hR hgt]
            exact ih env env' (i + 1) _ _ hsh
        · rw [pwnedLoop_step_unknown (h0.trans henv) h2 hR,
              pwnedLoop_step_unknown henv h2 hR]
          exact ih env env' (i + 1) _ _ hsh
      · rw [pwnedLoop_step_terminal (h0.trans henv) h2,
            pwnedLoop_step_terminal henv h2]

theorem pwnedLoop_step_nonterminal (env : ℕ → Attempt) (fuel i : ℕ)
    (e : Email) (sleeps : List ℚ)
    (hNT : attemptNonTerminal (env i) e.pwned_sleep) :
    ∃ e' sleeps',
      pwnedLoop env (fuel + 1) i e sleeps =
          pwnedLoop env fuel (i + 1) e' sleeps' ∧
      e'.pwned_sleep = attemptSleepAfter (env i) e.pwned_sleep ∧
      e'.last_error = attemptErr (env i) := by
  cases henv : env i with
  | exn err =>
    refine ⟨{ e with last_error := some err }, sleeps,
      pwnedLoop_step_exn henv fuel e sleeps, rfl, rfl⟩
  | resp c hs =>
    rw [henv] at hNT
    obtain ⟨h2, hrl⟩ := hNT
    by_cases hR : (statusOf c).1 = PwnedStatus.rateLimit
    · have hle : headerLookup hs e.pwned_sleep ≤ 80000 := hrl hR
      refine ⟨{ e with last_error := none,
                       pwned_status := some (statusOf c).1,
                       pwned_sleep := headerLookup hs e.pwned_sleep },
              sleeps ++ [headerLookup hs e.pwned_sleep],
              pwnedLoop_step_rate_small henv h2 hR (not_lt.mpr hle) fuel sleeps,
              ?_, rfl⟩
      simp [attemptSleepAfter, if_pos hR]
    · refine ⟨{ e with last_error := none,
                       pwned_status := some (statusOf c).1 },
              sleeps ++ [e.pwned_sleep],
              pwnedLoop_step_unknown henv h2 hR fuel e sleeps, ?_, rfl⟩
      simp [attemptSleepAfter, if_neg hR]

/-- C6 as stated is false: when the first attempt raises a transport error
and the second receives a (rate-limited) response, the exhaustion failure
carries `None` — the received response cleared the recorded error — rather
than the transport error the first attempt had. -/
theorem pwned_exhausted_cex :
    envErrThenRate 0 = Attempt.exn 7 ∧
    (pwned envErrThenRate eFix).1 = PwnedOutcome.exhausted none ∧
    PwnedOutcome.exhausted (none : Option ℕ) ≠
      PwnedOutcome.exhausted (some 7) := by
  exact ⟨by decide, by decide, by decide⟩

/-- C6 amended: a breach check makes at most 2 attempts (its result only
depends on the oracle at attempts 0 and 1), and when both attempts are
non-terminal it fails with the exhaustion error carrying the transport
error of the second attempt if that attempt had one, and nothing
otherwise — a first-attempt transport error is cleared by any received
response. -/
theorem pwned_bounded_exhausted :
    (∀ (env env' : ℕ → Attempt) (e : Email),
        env 0 = env' 0 → env 1 = env' 1 → pwned env e = pwned env' e) ∧
    (∀ (env : ℕ → Attempt) (e : Email),
        attemptNonTerminal (env 0) e.pwned_sleep →
        attemptNonTerminal (env 1) (attemptSleepAfter (env 0) e.pwned_sleep) →
        (pwned env e).1 = .exhausted (attemptErr (env 1))) := by
  constructor
  · intro env env' e h0 h1
    unfold pwned
    apply pwnedLoop_env_agree
    intro j hj
    interval_cases j
    · exact h0
    · exact h1
  · intro env e hNT0 hNT1
    obtain ⟨e1, s1, heq1, hsl1, -⟩ :=
      pwnedLoop_step_nonterminal env 1 0 e [] hNT0
    rw [← hsl1] at hNT1
    obtain ⟨e2, s2, heq2, -, herr2⟩ :=
      pwnedLoop_step_nonterminal env 0 1 e1 s1 hNT1
    unfold pwned
    rw [heq1, heq2, pwnedLoop, herr2]

/-- C6 witness: the amended exhaustion law on the error-then-rate-limit
oracle — the call ends exhausted carrying no error. -/
theorem pwned_bounded_exhausted_witness :
    (pwned envErrThenRate eFix).1 =
      .exhausted (attemptErr (envErrThenRate 1)) :=
  pwned_bounded_exhausted.2 envErrThenRate eFix trivial
    ⟨rfl, fun _ => by decide⟩

/-! ## Claim theorems: the crawl loop -/

/-- C2: right after a link is popped and added to `visited`, whenever
`error_count > 3` and `error_count` exceeds the threshold
`⌊0.9 · |visited|⌋`, the loop can make no further iteration: the crawl
terminates there, with the partial state as its result.  (`|visited|`
after the pop is `card + 1` because the popped link, being pending, was
never visited.) -/
theorem crawl_error_budget (env : String → FetchOutcome) (s : CrawlState)
    (hdis : Disjoint s.to_do s.visited)
    (h3 : 3 < s.error_count)
    (hthr : 9 * (s.visited.card + 1) / 10 < s.error_count) :
    CrawlTerminal env s := by
  intro s' hstep
  cases hstep with
  | step l hl hnb =>
    apply hnb
    refine ⟨h3, ?_⟩
    have hlv : l ∉ s.visited := Finset.disjoint_left.mp hdis hl
    show 9 * (insert l s.visited).card / 10 < s.error_count
    rw [Finset.card_insert_of_not_mem hlv]
    exact hthr

/-- C2 witness: `error_count = 4`, two links visited, one pending; after
the pop `|visited| = 3`, the threshold is `⌊0.9 · 3⌋ = 2 < 4`, and the
loop terminates at the error-budget check. -/
theorem crawl_error_budget_witness : CrawlTerminal envFail sBudget :=
  crawl_error_budget envFail sBudget (by decide) (by decide) (by decide)

theorem crawlStep_disjoint {env : String → FetchOutcome} {s s' : CrawlState}
    (hd : Disjoint s.to_do s.visited) (hstep : CrawlStep env s s') :
    Disjoint s'.to_do s'.visited := by
  cases hstep with
  | step l hl hnb =>
    have hmid : Disjoint (midState s l).to_do (midState s l).visited := by
      rw [Finset.disjoint_left]
      intro a ha
      have ha' : a ≠ l ∧ a ∈ s.to_do := Finset.mem_erase.mp ha
      intro hv
      rcases Finset.mem_insert.mp hv with h1 | h1
      · exact ha'.1 h1
      · exact Finset.disjoint_left.mp hd ha'.2 h1
    cases ho : env l with
    | fetchError => exact hmid
    | badStatusCode => exact hmid
    | nonText => exact hmid
    | decodeFail => exact hmid
    | page es ls =>
      rw [Finset.disjoint_left]
      intro a ha hv
      rcases Finset.mem_union.mp ha with h1 | h1
      · exact Finset.disjoint_left.mp hmid h1 hv
      · exact (Finset.mem_filter.mp h1).2 hv

/-- C8: in every state reachable by the crawl loop from its initial state,
`visited` and the pending work set are disjoint — a link enters the work
set only when not yet visited (line 286), and it enters `visited` exactly
as it is removed from the work set (lines 211–214). -/
theorem crawl_visited_pending_disjoint (env : String → FetchOutcome)
    (base : String) (err0 : ℕ) (s : CrawlState)
    (h : Relation.ReflTransGen (CrawlStep env) (initCrawl base err0) s) :
    Disjoint s.to_do s.visited := by
  induction h with
  | refl => simp [initCrawl]
  | tail hab hbc ih => exact crawlStep_disjoint ih hbc

/-- C8 witness: the invariant at the initial state of a crawl of
`http://h/`. -/
theorem crawl_visited_pending_disjoint_witness :
    Disjoint (initCrawl "http://h/" 0).to_do (initCrawl "http://h/" 0).visited :=
  crawl_visited_pending_disjoint envFail "http://h/" 0 _
    Relation.ReflTransGen.refl
